import Mathlib

/-!
# Shallow embedding of `sx.balance` (`src/balancer.hpp`)

The header implements Balancer-style weighted-pool pricing with three static
functions, `balancer::get_amount_out`, `balancer::get_amount_in` and
`balancer::quote`, over `uint64_t` reserves and weights and a `uint8_t` fee.

Modelling conventions:
* `uint64_t` values are `Nat`; every native 64-bit multiplication or
  subtraction of the source is wrapped explicitly with `% 2 ^ 64`
  (`wrap64`, `sub64`), exactly where the C++ expression has unsigned type.
* `uint8_t` is `Fin 256`.
* C++ `double` arithmetic is modelled by exact real (or rational) arithmetic
  with the final `uint64_t` cast as an explicit floor; IEEE-754 special
  values (division by zero producing an infinity or NaN) are translated into
  explicit branches where the source can reach them, and a NaN or
  out-of-range value arriving at the final integer cast — undefined
  behaviour in C++ — is modelled as the error `undefinedCast`.
  Properties that depend on IEEE-754 rounding error are outside this model.
* `eosio::check(cond, msg)` aborts the transaction when `cond` is false;
  each function therefore returns `Except Error Nat`, with one error per
  distinct abort message, plus errors for the arithmetic traps
  (integer division by zero, checked-multiply overflow).
-/

namespace SxBalance

/-- Failure conditions: one constructor per `eosio::check` message of
`src/balancer.hpp`, plus the overflow-safe utility's conditions and the
hardware traps / undefined casts reachable in the source. -/
inductive Error where
  | insufficientInputAmount
  | insufficientOutputAmount
  | insufficientAmount
  | insufficientLiquidity
  | invalidWeight
  | overflow
  | underflow
  | divisionByZero
  | undefinedCast
deriving DecidableEq

/-- `2 ^ 64`, the modulus of `uint64_t` arithmetic. -/
def u64Mod : Nat := 2 ^ 64

/-- Native `uint64_t` multiplication/narrowing: reduce modulo `2 ^ 64`. -/
def wrap64 (x : Nat) : Nat := x % u64Mod

/-- Native `uint64_t` subtraction `a - b`: wraps modulo `2 ^ 64`
(arguments are `uint64_t` values, hence `< 2 ^ 64`). -/
def sub64 (a b : Nat) : Nat := (a + u64Mod - b) % u64Mod

/-- The fee multiplier `10000 - fee` of the source (`int` arithmetic after
integral promotion of the `uint8_t` fee, so no wrapping is possible). -/
def fee_multiplier (fee : Fin 256) : Nat := 10000 - fee.val

namespace safemath

/-- Modelled from the spec: the overflow-safe arithmetic utility
(`sx.safemath`, an external include, not under `src/`). `mul` computes the
product of two 64-bit operands in a 128-bit intermediate and fails with an
Overflow condition when the true product exceeds the 64-bit range. -/
def mul (a b : Nat) : Except Error Nat :=
  if a * b < u64Mod then .ok (a * b) else .error .overflow

end safemath

namespace balancer

/-- `balancer::get_amount_out` (src/balancer.hpp:37-52).
Checks mirror lines 40-42 in order; the body mirrors lines 45-49:
`reserve_in * 10000` and `amount_in * (10000 - fee)` are native `uint64_t`
products (wrapping), the rest is `double` arithmetic modelled exactly over
ℝ, with `pow` as real exponentiation. The final cast truncates; the value
`reserve_out * (1 - base ^ wq)` lies in `[0, reserve_out]`, so for genuine
`uint64_t` inputs the cast is defined, except when both wrapped operands of
the inner division are zero (`0.0/0.0` is NaN, whose cast is undefined). -/
noncomputable def get_amount_out (amount_in reserve_in reserve_weight_in reserve_out reserve_weight_out : Nat) (fee : Fin 256) : Except Error Nat :=
  if amount_in = 0 then .error .insufficientInputAmount
  else if reserve_in = 0 ∨ reserve_out = 0 then .error .insufficientLiquidity
  else if reserve_weight_in = 0 ∨ reserve_weight_out = 0 then .error .invalidWeight
  else
    let wq : ℝ := (reserve_weight_in : ℝ) / (reserve_weight_out : ℝ)
    let amount_in_with_fee : Nat := wrap64 (amount_in * fee_multiplier fee)
    let scaled_in : Nat := wrap64 (reserve_in * 10000)
    if scaled_in = 0 ∧ amount_in_with_fee = 0 then .error .undefinedCast
    else
      let base : ℝ := (scaled_in : ℝ) / ((scaled_in : ℝ) + (amount_in_with_fee : ℝ))
      .ok (⌊(reserve_out : ℝ) * (1 - base ^ wq)⌋).toNat

/-- `balancer::get_amount_in` (src/balancer.hpp:84-96).
Checks mirror lines 87-88 (note: no weight check in the source); the body
mirrors lines 90-93: `(reserve_out - amount_out) * (10000 - fee)` is native
wrapping `uint64_t` arithmetic, the rest is `double` arithmetic modelled
exactly over ℚ. IEEE-754 cases made explicit: with `reserve_weight_out = 0`
the weight quotient is `+inf` (or NaN when `reserve_weight_in = 0`), so a
positive finite numerator over an infinite denominator gives `1`; a zero
real denominator sends `+inf` (the numerator is positive in the reached
branch) or NaN into the final cast, which is undefined, as is a value
outside `[0, 2 ^ 64)`. -/
def get_amount_in (amount_out reserve_in reserve_weight_in reserve_out reserve_weight_out : Nat) (fee : Fin 256) : Except Error Nat :=
  if amount_out = 0 then .error .insufficientOutputAmount
  else if reserve_in = 0 ∨ reserve_out = 0 then .error .insufficientLiquidity
  else
    let denNat : Nat := wrap64 (sub64 reserve_out amount_out * fee_multiplier fee)
    if reserve_weight_out = 0 then
      if reserve_weight_in = 0 ∨ denNat = 0 then .error .undefinedCast else .ok 1
    else
      let wq : ℚ := (reserve_weight_in : ℚ) / (reserve_weight_out : ℚ)
      let num : ℚ := (reserve_in : ℚ) * (amount_out : ℚ) * 10000
      let den : ℚ := (denNat : ℚ) * wq
      if den = 0 then .error .undefinedCast
      else
        let v : Int := 1 + ⌊num / den⌋
        if v < 0 ∨ (u64Mod : Int) ≤ v then .error .undefinedCast else .ok v.toNat

/-- `balancer::quote` (src/balancer.hpp:126-132).
Checks mirror lines 128-129; line 130 is
`safemath::mul(amount_a, reserve_b * 10000 / reserve_weight_b) / (reserve_a * 10000 / reserve_weight_a)`,
where both `reserve * 10000` products are native wrapping `uint64_t`
multiplications and only the outer product of `amount_a` goes through the
checked multiply. Integer division by zero (a zero weight, or a scaled
`reserve_a` that truncates to zero) traps; C++ leaves the evaluation order
of the two division operands unspecified, and this model fixes it as: the
checked multiply first, then the divisor. -/
def quote (amount_a reserve_a reserve_weight_a reserve_b reserve_weight_b : Nat) : Except Error Nat :=
  if amount_a = 0 then .error .insufficientAmount
  else if reserve_a = 0 ∨ reserve_b = 0 then .error .insufficientLiquidity
  else if reserve_weight_b = 0 then .error .divisionByZero
  else
    let scaled_b : Nat := wrap64 (reserve_b * 10000) / reserve_weight_b
    match safemath.mul amount_a scaled_b with
    | .error e => .error e
    | .ok m =>
      if reserve_weight_a = 0 then .error .divisionByZero
      else
        let scaled_a : Nat := wrap64 (reserve_a * 10000) / reserve_weight_a
        if scaled_a = 0 then .error .divisionByZero
        else .ok (m / scaled_a)

/-- The per-claim formula stated by the spec for `get_amount_in` (§4.3):
`1 + floor(reserve_in * amount_out * 10000 / ((reserve_out - amount_out) * (10000 - fee) * (weight_in / weight_out)))`
with real-valued division. Stated from the spec's words, for comparison
with the source embedding `get_amount_in`. -/
def get_amount_in_claimed (amount_out reserve_in reserve_weight_in reserve_out reserve_weight_out : Nat) (fee : Fin 256) : Nat :=
  (1 + ⌊((reserve_in : ℚ) * (amount_out : ℚ) * 10000) /
      (((reserve_out - amount_out : Nat) : ℚ) * (fee_multiplier fee : ℚ) *
        ((reserve_weight_in : ℚ) / (reserve_weight_out : ℚ)))⌋).toNat

end balancer

/-! ## Supporting lemmas -/

theorem fee_multiplier_bounds (fee : Fin 256) :
    9745 ≤ fee_multiplier fee ∧ fee_multiplier fee ≤ 10000 := by
  have := fee.isLt
  simp only [fee_multiplier]
  omega

theorem sub64_of_le {a b : Nat} (h : b ≤ a) (h2 : a - b < u64Mod) :
    sub64 a b = a - b := by
  simp only [sub64, u64Mod] at *
  omega

namespace balancer

/-- Under the stated no-wrap and range hypotheses, `get_amount_in` reaches
its final branch and returns exactly the spec's formula
`get_amount_in_claimed`. -/
theorem get_amount_in_eval (ao ri rwi ro rwo : Nat) (fee : Fin 256)
    (h1 : 0 < ao) (h2 : ao < ro) (h3 : 0 < ri) (h4 : 0 < rwi) (h5 : 0 < rwo)
    (h6 : (ro - ao) * fee_multiplier fee < u64Mod)
    (h7 : ri * ao * 10000 * rwo < (ro - ao) * fee_multiplier fee * rwi * (u64Mod - 1)) :
    get_amount_in ao ri rwi ro rwo fee =
      Except.ok (get_amount_in_claimed ao ri rwi ro rwo fee) := by
  have hfm := fee_multiplier_bounds fee
  have hroao : 0 < ro - ao := by omega
  have hsub : sub64 ro ao = ro - ao := by
    apply sub64_of_le (le_of_lt h2)
    have : ro - ao ≤ (ro - ao) * fee_multiplier fee :=
      Nat.le_mul_of_pos_right _ (by omega)
    omega
  have hDpos : (0 : ℚ) < ((ro - ao : Nat) : ℚ) * (fee_multiplier fee : ℚ) := by
    have : (0 : ℚ) < ((ro - ao : Nat) : ℚ) := by exact_mod_cast hroao
    have : (0 : ℚ) < ((fee_multiplier fee : ℕ) : ℚ) := by exact_mod_cast (by omega : 0 < fee_multiplier fee)
    positivity
  have hwq : (0 : ℚ) < (rwi : ℚ) / (rwo : ℚ) := by
    apply div_pos <;> exact_mod_cast ‹_›
  simp only [get_amount_in, get_amount_in_claimed]
  rw [if_neg (by omega), if_neg (by omega), hsub, wrap64, Nat.mod_eq_of_lt h6,
    if_neg (by omega)]
  have hden : (0 : ℚ) <
      (((ro - ao) * fee_multiplier fee : ℕ) : ℚ) * ((rwi : ℚ) / (rwo : ℚ)) := by
    push_cast
    push_cast at hDpos
    exact mul_pos hDpos hwq
  rw [if_neg (by exact ne_of_gt hden)]
  set q : ℚ := ((ri : ℚ) * (ao : ℚ) * 10000) /
    ((((ro - ao) * fee_multiplier fee : ℕ) : ℚ) * ((rwi : ℚ) / (rwo : ℚ))) with hq
  have hq0 : (0 : ℚ) ≤ q := by
    apply div_nonneg _ (le_of_lt hden)
    positivity
  have hfloor0 : 0 ≤ ⌊q⌋ := Int.floor_nonneg.mpr hq0
  have hub : q < ((u64Mod - 1 : ℕ) : ℚ) := by
    have hDr : (0 : ℚ) < (((ro - ao) * fee_multiplier fee * rwi : ℕ) : ℚ) := by
      exact_mod_cast Nat.mul_pos (Nat.mul_pos hroao (by omega)) h4
    have hrwo : (0 : ℚ) < (rwo : ℚ) := by exact_mod_cast h5
    have hrwi : (0 : ℚ) < (rwi : ℚ) := by exact_mod_cast h4
    have hq' : q = ((ri * ao * 10000 * rwo : ℕ) : ℚ) /
        (((ro - ao) * fee_multiplier fee * rwi : ℕ) : ℚ) := by
      rw [hq]
      have hD : ((((ro - ao) * fee_multiplier fee : ℕ)) : ℚ) ≠ 0 := by
        push_cast at hDpos ⊢
        positivity
      push_cast
      field_simp
    rw [hq', div_lt_iff₀ hDr]
    have h7' : ((ri * ao * 10000 * rwo : ℕ) : ℚ) <
        (((ro - ao) * fee_multiplier fee * rwi * (u64Mod - 1) : ℕ) : ℚ) := by
      exact_mod_cast h7
    calc ((ri * ao * 10000 * rwo : ℕ) : ℚ)
        < (((ro - ao) * fee_multiplier fee * rwi * (u64Mod - 1) : ℕ) : ℚ) := h7'
      _ = ((u64Mod - 1 : ℕ) : ℚ) * (((ro - ao) * fee_multiplier fee * rwi : ℕ) : ℚ) := by
          push_cast
          ring
  have hflt : 1 + ⌊q⌋ < ((u64Mod : ℕ) : ℤ) := by
    have : ⌊q⌋ < ((u64Mod - 1 : ℕ) : ℤ) := by
      rw [Int.floor_lt]
      exact_mod_cast hub
    have hu : 1 ≤ u64Mod := by simp [u64Mod]
    omega
  rw [if_neg (by push_neg; exact ⟨by omega, by exact_mod_cast hflt⟩)]
  congr 1
  have : ((((ro - ao) * fee_multiplier fee : ℕ)) : ℚ) =
      ((ro - ao : Nat) : ℚ) * ((fee_multiplier fee : ℕ) : ℚ) := by push_cast; ring
  rw [hq, this]

/-- Under the stated no-wrap hypotheses, `get_amount_out` reaches its final
branch and returns the floor of the real-valued weighted-pool formula. -/
theorem get_amount_out_eval (a ri rwi ro rwo : Nat) (fee : Fin 256)
    (h1 : 0 < a) (h2 : 0 < ri) (h3 : 0 < ro) (h4 : 0 < rwi) (h5 : 0 < rwo)
    (h6 : a * fee_multiplier fee < u64Mod) (h7 : ri * 10000 < u64Mod) :
    get_amount_out a ri rwi ro rwo fee =
      Except.ok (⌊(ro : ℝ) *
        (1 - (((ri * 10000 : ℕ) : ℝ) /
            (((ri * 10000 : ℕ) : ℝ) + ((a * fee_multiplier fee : ℕ) : ℝ))) ^
          ((rwi : ℝ) / (rwo : ℝ)))⌋).toNat := by
  simp only [get_amount_out, wrap64]
  rw [if_neg (by omega), if_neg (by omega), if_neg (by omega),
    Nat.mod_eq_of_lt h6, Nat.mod_eq_of_lt h7,
    if_neg (by rintro ⟨hh, _⟩; omega)]

/-- When the checked multiply succeeds, `quote` reduces to the division
chain with its two division-by-zero traps. -/
theorem quote_eval (a ra rwa rb rwb : Nat)
    (h1 : 0 < a) (h2 : 0 < ra) (h3 : 0 < rb) (h4 : rwb ≠ 0)
    (h5 : a * (wrap64 (rb * 10000) / rwb) < u64Mod) :
    quote a ra rwa rb rwb =
      (if rwa = 0 then Except.error Error.divisionByZero
       else if wrap64 (ra * 10000) / rwa = 0 then Except.error Error.divisionByZero
       else Except.ok (a * (wrap64 (rb * 10000) / rwb) / (wrap64 (ra * 10000) / rwa))) := by
  simp only [quote, safemath.mul]
  rw [if_neg (by omega), if_neg (by omega), if_neg h4, if_pos h5]

/-- When the checked multiply's true product exceeds the 64-bit range,
`quote` fails with Overflow. -/
theorem quote_mul_overflow (a ra rwa rb rwb : Nat)
    (h1 : 0 < a) (h2 : 0 < ra) (h3 : 0 < rb) (h4 : rwb ≠ 0)
    (h5 : u64Mod ≤ a * (wrap64 (rb * 10000) / rwb)) :
    quote a ra rwa rb rwb = Except.error Error.overflow := by
  simp only [quote, safemath.mul]
  rw [if_neg (by omega), if_neg (by omega), if_neg h4, if_neg (not_lt.mpr h5)]

/-- `get_amount_out` is weakly monotone in `amount_in` (within the
no-wrap range): the real-valued formula is strictly increasing, and the
final truncation keeps it non-decreasing. -/
theorem get_amount_out_mono (ri rwi ro rwo a1 a2 : Nat) (fee : Fin 256)
    (h1 : 0 < a1) (h12 : a1 ≤ a2) (h2 : 0 < ri) (h3 : 0 < ro) (h4 : 0 < rwi)
    (h5 : 0 < rwo) (h6 : a2 * fee_multiplier fee < u64Mod)
    (h7 : ri * 10000 < u64Mod) :
    ∃ o1 o2, get_amount_out a1 ri rwi ro rwo fee = Except.ok o1 ∧
      get_amount_out a2 ri rwi ro rwo fee = Except.ok o2 ∧ o1 ≤ o2 := by
  have h6a : a1 * fee_multiplier fee < u64Mod :=
    lt_of_le_of_lt (Nat.mul_le_mul_right _ h12) h6
  refine ⟨_, _, get_amount_out_eval a1 ri rwi ro rwo fee h1 h2 h3 h4 h5 h6a h7,
    get_amount_out_eval a2 ri rwi ro rwo fee (by omega) h2 h3 h4 h5 h6 h7, ?_⟩
  apply Int.toNat_le_toNat
  apply Int.floor_le_floor
  have hs : (0 : ℝ) < ((ri * 10000 : ℕ) : ℝ) := by
    have : 0 < ri * 10000 := by positivity
    exact_mod_cast this
  have hx : ((a1 * fee_multiplier fee : ℕ) : ℝ) ≤
      ((a2 * fee_multiplier fee : ℕ) : ℝ) := by
    exact_mod_cast Nat.mul_le_mul_right _ h12
  have hx0 : (0 : ℝ) ≤ ((a1 * fee_multiplier fee : ℕ) : ℝ) := by positivity
  have hw0 : (0 : ℝ) ≤ (rwi : ℝ) / (rwo : ℝ) := by positivity
  gcongr (ro : ℝ) * (1 - ?_ ^ _)
  gcongr

/-- `get_amount_in` is weakly monotone in `amount_out` (within the no-wrap
range): numerator grows, denominator shrinks, and the floor keeps the
result non-decreasing. -/
theorem get_amount_in_mono (ri rwi ro rwo b1 b2 : Nat) (fee : Fin 256)
    (h1 : 0 < b1) (h12 : b1 ≤ b2) (h2 : b2 < ro) (h3 : 0 < ri) (h4 : 0 < rwi)
    (h5 : 0 < rwo) (h6 : ro * 10000 < u64Mod)
    (h7 : ri * b2 * 10000 * rwo < (ro - b2) * fee_multiplier fee * rwi * (u64Mod - 1)) :
    ∃ v1 v2, get_amount_in b1 ri rwi ro rwo fee = Except.ok v1 ∧
      get_amount_in b2 ri rwi ro rwo fee = Except.ok v2 ∧ v1 ≤ v2 := by
  have hfm := fee_multiplier_bounds fee
  have h6b : ∀ b, (ro - b) * fee_multiplier fee < u64Mod := fun b =>
    lt_of_le_of_lt (Nat.mul_le_mul (Nat.sub_le ro b) hfm.2) h6
  have h7b1 : ri * b1 * 10000 * rwo <
      (ro - b1) * fee_multiplier fee * rwi * (u64Mod - 1) := by
    calc ri * b1 * 10000 * rwo ≤ ri * b2 * 10000 * rwo := by gcongr
      _ < (ro - b2) * fee_multiplier fee * rwi * (u64Mod - 1) := h7
      _ ≤ (ro - b1) * fee_multiplier fee * rwi * (u64Mod - 1) := by
          gcongr
  refine ⟨_, _,
    get_amount_in_eval b1 ri rwi ro rwo fee h1 (by omega) h3 h4 h5 (h6b b1) h7b1,
    get_amount_in_eval b2 ri rwi ro rwo fee (by omega) h2 h3 h4 h5 (h6b b2) h7, ?_⟩
  simp only [get_amount_in_claimed]
  apply Int.toNat_le_toNat
  apply add_le_add_left
  apply Int.floor_le_floor
  have hrwi : (0 : ℝ) < (rwi : ℝ) := by exact_mod_cast h4
  have hq : (0 : ℚ) < (rwi : ℚ) / (rwo : ℚ) := by
    apply div_pos <;> exact_mod_cast ‹_›
  have hb : ((b1 : ℕ) : ℚ) ≤ ((b2 : ℕ) : ℚ) := by exact_mod_cast h12
  have hD : ((ro - b2 : Nat) : ℚ) ≤ ((ro - b1 : Nat) : ℚ) := by
    exact_mod_cast Nat.sub_le_sub_left h12 ro
  have hD2 : (0 : ℚ) < ((ro - b2 : Nat) : ℚ) := by
    have : 0 < ro - b2 := by omega
    exact_mod_cast this
  have hfq : (0 : ℚ) < ((fee_multiplier fee : ℕ) : ℚ) := by
    have : 0 < fee_multiplier fee := by omega
    exact_mod_cast this
  gcongr

/-- Key estimate for the round trip at equal weights: the truncated first
leg `o = floor(ro * x / (s + x))` stays below `ro`, and satisfies the
cleared-denominator inequality `s * o ≤ x * (ro - o)` that makes the
second leg's quotient at most the original amount. -/
theorem round_trip_key (sN xN ro : Nat) (hs : 0 < sN) (hx : 0 < xN) (hro : 0 < ro) :
    (⌊(ro : ℝ) * ((xN : ℝ) / ((sN : ℝ) + (xN : ℝ)))⌋).toNat < ro ∧
      sN * (⌊(ro : ℝ) * ((xN : ℝ) / ((sN : ℝ) + (xN : ℝ)))⌋).toNat ≤
        xN * (ro - (⌊(ro : ℝ) * ((xN : ℝ) / ((sN : ℝ) + (xN : ℝ)))⌋).toNat) := by
  have hsR : (0 : ℝ) < (sN : ℝ) := by exact_mod_cast hs
  have hxR : (0 : ℝ) < (xN : ℝ) := by exact_mod_cast hx
  have hroR : (0 : ℝ) < (ro : ℝ) := by exact_mod_cast hro
  have hsx : (0 : ℝ) < (sN : ℝ) + (xN : ℝ) := by linarith
  set V : ℝ := (ro : ℝ) * ((xN : ℝ) / ((sN : ℝ) + (xN : ℝ))) with hV
  have hV0 : 0 ≤ V := by rw [hV]; positivity
  have hfl0 : 0 ≤ ⌊V⌋ := Int.floor_nonneg.mpr hV0
  have hoR : (((⌊V⌋).toNat : ℕ) : ℝ) ≤ V := by
    calc (((⌊V⌋).toNat : ℕ) : ℝ) = ((⌊V⌋ : ℤ) : ℝ) := by
          exact_mod_cast Int.toNat_of_nonneg hfl0
      _ ≤ V := Int.floor_le V
  have hVro : V < (ro : ℝ) := by
    rw [hV]
    have hlt1 : (xN : ℝ) / ((sN : ℝ) + (xN : ℝ)) < 1 := by
      rw [div_lt_one hsx]; linarith
    nlinarith
  have horo : (⌊V⌋).toNat < ro := by
    have : (((⌊V⌋).toNat : ℕ) : ℝ) < (ro : ℝ) := lt_of_le_of_lt hoR hVro
    exact_mod_cast this
  refine ⟨horo, ?_⟩
  have hle : (((⌊V⌋).toNat : ℕ) : ℝ) * ((sN : ℝ) + (xN : ℝ)) ≤ (ro : ℝ) * (xN : ℝ) := by
    have hV' : V = (ro : ℝ) * (xN : ℝ) / ((sN : ℝ) + (xN : ℝ)) := by
      rw [hV, mul_div_assoc]
    have h2 : (((⌊V⌋).toNat : ℕ) : ℝ) ≤
        (ro : ℝ) * (xN : ℝ) / ((sN : ℝ) + (xN : ℝ)) := by
      rw [← hV']; exact hoR
    exact (le_div_iff₀ hsx).mp h2
  have key : (sN : ℝ) * (((⌊V⌋).toNat : ℕ) : ℝ) ≤
      (xN : ℝ) * ((ro : ℝ) - (((⌊V⌋).toNat : ℕ) : ℝ)) := by nlinarith
  have key2 : (sN : ℝ) * (((⌊V⌋).toNat : ℕ) : ℝ) ≤
      (xN : ℝ) * (((ro - (⌊V⌋).toNat : ℕ)) : ℝ) := by
    rwa [Nat.cast_sub horo.le]
  exact_mod_cast key2

end balancer

/-! ## The claims -/

open balancer

/-- Claim C1: with `amount_out >= reserve_out` and the other preconditions
satisfied, `get_amount_in` was claimed to fail with the arithmetic
utility's Underflow. Counterexample: at
`get_amount_in(200, 100, 50000, 100, 50000, 30)` the subtraction wraps and
the function returns the value 1 — it does not fail at all. -/
theorem c1_counterexample :
    get_amount_in 200 100 50000 100 50000 30 = Except.ok 1 := by
  simp only [get_amount_in, wrap64, sub64, u64Mod,
    show fee_multiplier 30 = 9970 from rfl]
  norm_num

/-- Claim C1 (amended): `get_amount_in` computes `reserve_out - amount_out`
in native wrapping 64-bit arithmetic and never raises the arithmetic
utility's Underflow condition, whatever its arguments. -/
theorem c1_never_underflow (ao ri rwi ro rwo : Nat) (fee : Fin 256) :
    get_amount_in ao ri rwi ro rwo fee ≠ Except.error Error.underflow := by
  simp only [get_amount_in]
  split_ifs <;> simp

/-- Claim C2: all three operations were claimed to fail with InvalidWeight
on a zero weight. Counterexample: `quote(10, 100, 0, 100, 50000)` fails
with a division-by-zero trap, not InvalidWeight. -/
theorem c2_counterexample :
    quote 10 100 0 100 50000 = Except.error Error.divisionByZero ∧
      Error.divisionByZero ≠ Error.invalidWeight := by
  exact ⟨rfl, by simp⟩

/-- Claim C2 (amended): only `get_amount_out` validates the weights (after
its amount and liquidity checks); `get_amount_in` and `quote` perform no
weight check and can never fail with InvalidWeight. -/
theorem c2_weight_validation :
    (∀ a ri rwi ro rwo : Nat, ∀ fee : Fin 256, 0 < a → 0 < ri → 0 < ro →
      rwi = 0 ∨ rwo = 0 →
      get_amount_out a ri rwi ro rwo fee = Except.error Error.invalidWeight) ∧
    (∀ ao ri rwi ro rwo : Nat, ∀ fee : Fin 256,
      get_amount_in ao ri rwi ro rwo fee ≠ Except.error Error.invalidWeight) ∧
    (∀ a ra rwa rb rwb : Nat,
      quote a ra rwa rb rwb ≠ Except.error Error.invalidWeight) := by
  refine ⟨?_, ?_, ?_⟩
  · intro a ri rwi ro rwo fee ha hri hro hw
    simp only [get_amount_out]
    rw [if_neg (by omega), if_neg (by omega), if_pos (by omega)]
  · intro ao ri rwi ro rwo fee
    simp only [get_amount_in]
    split_ifs <;> simp
  · intro a ra rwa rb rwb
    simp only [quote, safemath.mul]
    split_ifs <;> simp

/-- Claim C2, instances: `get_amount_out` does fail with InvalidWeight on a
zero weight, while `get_amount_in` and `quote` do not, at the concrete
inputs `(10, 100, weight 0, 100, 50000)`. -/
theorem c2_witness :
    get_amount_out 10 100 0 100 50000 30 = Except.error Error.invalidWeight ∧
      get_amount_in 10 100 0 100 50000 30 ≠ Except.error Error.invalidWeight ∧
      quote 10 100 0 100 50000 ≠ Except.error Error.invalidWeight :=
  ⟨c2_weight_validation.1 10 100 0 100 50000 30 (by norm_num) (by norm_num)
      (by norm_num) (Or.inl rfl),
    c2_weight_validation.2.1 10 100 0 100 50000 30,
    c2_weight_validation.2.2 10 100 0 100 50000⟩

/-- Claim C3: every reserve- or amount-scale product was claimed to route
through the overflow-safe multiply. Counterexample: in
`quote(1, 1, 10000, 2^63, 10000)` the native product `reserve_b * 10000`
silently wraps to 0 (the true product exceeds 2^64) and quote returns 0
instead of failing with Overflow. -/
theorem c3_counterexample :
    quote 1 1 10000 (2 ^ 63) 10000 = Except.ok 0 := rfl

/-- Claim C3 (amended): only the first product of `quote`
(`amount_a` times the scaled `reserve_b`) goes through the overflow-safe
multiply, and that one does fail fast with Overflow whenever its true
product reaches 2^64; the reserve scalings `reserve * 10000` in `quote` and
`get_amount_out` are native 64-bit multiplications that wrap silently.
(The hypotheses keep the divisor's own traps out of the way, since C++
fixes no evaluation order between the division's operands.) -/
theorem c3_checked_multiply (a ra rwa rb rwb : Nat)
    (h1 : 0 < a) (h2 : 0 < ra) (h3 : 0 < rb) (h4 : rwb ≠ 0) (_h5 : rwa ≠ 0)
    (_h6 : wrap64 (ra * 10000) / rwa ≠ 0)
    (h7 : u64Mod ≤ a * (wrap64 (rb * 10000) / rwb)) :
    quote a ra rwa rb rwb = Except.error Error.overflow :=
  quote_mul_overflow a ra rwa rb rwb h1 h2 h3 h4 h7

/-- Claim C3, instance: `quote(2^32, 1, 10000, 2^32, 10000)` has true first
product `2^32 * 2^32 = 2^64` and fails with Overflow. -/
theorem c3_witness :
    quote (2 ^ 32) 1 10000 (2 ^ 32) 10000 = Except.error Error.overflow :=
  c3_checked_multiply (2 ^ 32) 1 10000 (2 ^ 32) 10000 (by norm_num)
    (by norm_num) (by norm_num) (by norm_num) (by norm_num)
    (by norm_num [wrap64, u64Mod]) (by norm_num [wrap64, u64Mod])

/-- Claim C4: the documented example
`quote(10000, 45851931234, 125682033533)` with equal weights returns
exactly 27410. -/
theorem c4_quote_example :
    quote 10000 45851931234 50000 125682033533 50000 = Except.ok 27410 := rfl

/-- Claim C5: `get_amount_out` fails with InsufficientInput when
`amount_in = 0` and with InsufficientLiquidity when either reserve is 0;
`quote` fails with InsufficientLiquidity when either reserve is 0. -/
theorem c5_zero_argument_checks :
    (∀ ri rwi ro rwo : Nat, ∀ fee : Fin 256,
      get_amount_out 0 ri rwi ro rwo fee =
        Except.error Error.insufficientInputAmount) ∧
    (∀ a ri rwi ro rwo : Nat, ∀ fee : Fin 256, 0 < a → ri = 0 ∨ ro = 0 →
      get_amount_out a ri rwi ro rwo fee =
        Except.error Error.insufficientLiquidity) ∧
    (∀ a ra rwa rb rwb : Nat, 0 < a → ra = 0 ∨ rb = 0 →
      quote a ra rwa rb rwb = Except.error Error.insufficientLiquidity) := by
  refine ⟨?_, ?_, ?_⟩
  · intro ri rwi ro rwo fee
    simp only [get_amount_out]
    norm_num
  · intro a ri rwi ro rwo fee ha hr
    simp only [get_amount_out]
    rw [if_neg (by omega), if_pos hr]
  · intro a ra rwa rb rwb ha hr
    simp only [quote]
    rw [if_neg (by omega), if_pos hr]

/-- Claim C5, instances: the spec's three concrete precondition
violations, with equal weights. -/
theorem c5_witness :
    get_amount_out 0 100 50000 100 50000 30 =
        Except.error Error.insufficientInputAmount ∧
      get_amount_out 10 0 50000 100 50000 30 =
        Except.error Error.insufficientLiquidity ∧
      quote 10 100 50000 0 50000 = Except.error Error.insufficientLiquidity :=
  ⟨c5_zero_argument_checks.1 100 50000 100 50000 30,
    c5_zero_argument_checks.2.1 10 0 50000 100 50000 30 (by norm_num) (Or.inl rfl),
    c5_zero_argument_checks.2.2 10 100 50000 0 50000 (by norm_num) (Or.inr rfl)⟩

/-- Claim C6: `get_amount_in` was claimed to return `1 + floor(formula)`
for every valid input. Counterexample: at
`(amount_out 1, reserve_in 2^60, reserve_out 2^62 + 1, equal weights,
fee 30)` the native 64-bit product `(reserve_out - amount_out) * (10000 - fee)`
wraps, and the function returns 1251 while the claimed formula gives 1. -/
theorem c6_counterexample :
    get_amount_in 1 (2 ^ 60) 50000 (2 ^ 62 + 1) 50000 30 = Except.ok 1251 ∧
      get_amount_in_claimed 1 (2 ^ 60) 50000 (2 ^ 62 + 1) 50000 30 = 1 := by
  constructor
  · simp only [get_amount_in, wrap64, sub64, u64Mod,
      show fee_multiplier 30 = 9970 from rfl]
    norm_num
    decide
  · simp only [get_amount_in_claimed, show fee_multiplier 30 = 9970 from rfl]
    norm_num

/-- Claim C6 (amended): for valid inputs whose intermediate product
`(reserve_out - amount_out) * (10000 - fee)` stays below 2^64 and whose
result fits 64 bits, `get_amount_in` returns exactly
`1 + floor(reserve_in * amount_out * 10000 / ((reserve_out - amount_out) * (10000 - fee) * (weight_in / weight_out)))`
with real-valued division — the upward-rounding bias of +1. -/
theorem c6_rounded_up_formula (ao ri rwi ro rwo : Nat) (fee : Fin 256)
    (h1 : 0 < ao) (h2 : ao < ro) (h3 : 0 < ri) (h4 : 0 < rwi) (h5 : 0 < rwo)
    (h6 : (ro - ao) * fee_multiplier fee < u64Mod)
    (h7 : ri * ao * 10000 * rwo < (ro - ao) * fee_multiplier fee * rwi * (u64Mod - 1)) :
    get_amount_in ao ri rwi ro rwo fee =
      Except.ok (get_amount_in_claimed ao ri rwi ro rwo fee) :=
  get_amount_in_eval ao ri rwi ro rwo fee h1 h2 h3 h4 h5 h6 h7

/-- Claim C6, instance: at `(1, 1, 50000, 2, 50000, 30)` all hypotheses
hold and `get_amount_in` returns the claimed formula's value. -/
theorem c6_witness :
    get_amount_in 1 1 50000 2 50000 30 =
      Except.ok (get_amount_in_claimed 1 1 50000 2 50000 30) :=
  c6_rounded_up_formula 1 1 50000 2 50000 30 (by norm_num) (by norm_num)
    (by norm_num) (by norm_num) (by norm_num) (by norm_num [u64Mod, show fee_multiplier 30 = 9970 from rfl])
    (by norm_num [u64Mod, show fee_multiplier 30 = 9970 from rfl])

/-- Claim C7: both functions were claimed strictly increasing in the trade
amount. Counterexample: the final truncation collapses neighbouring
amounts — `get_amount_out` returns 0 at both `amount_in = 1` and `2`
(reserves 10^6 and 1), and `get_amount_in` returns 1 at both
`amount_out = 1` and `2` (reserves 1 and 10^6), all with equal weights. -/
theorem c7_counterexample :
    get_amount_out 1 1000000 50000 1 50000 30 = Except.ok 0 ∧
      get_amount_out 2 1000000 50000 1 50000 30 = Except.ok 0 ∧
      get_amount_in 1 1 50000 1000000 50000 30 = Except.ok 1 ∧
      get_amount_in 2 1 50000 1000000 50000 30 = Except.ok 1 := by
  refine ⟨?_, ?_, ?_, ?_⟩ <;>
    · first
      | (simp only [get_amount_out, wrap64, sub64, u64Mod,
          show fee_multiplier 30 = 9970 from rfl]
         norm_num)
      | (simp only [get_amount_in, wrap64, sub64, u64Mod,
          show fee_multiplier 30 = 9970 from rfl]
         norm_num)

/-- Claim C7 (amended): over the no-wrap input range both functions are
weakly monotone (non-decreasing) in the trade amount — the underlying
real-valued formulas are strictly increasing, but the final integer
truncation can return equal values at neighbouring amounts. -/
theorem c7_weak_monotonicity :
    (∀ ri rwi ro rwo a1 a2 : Nat, ∀ fee : Fin 256,
      0 < a1 → a1 ≤ a2 → 0 < ri → 0 < ro → 0 < rwi → 0 < rwo →
      a2 * fee_multiplier fee < u64Mod → ri * 10000 < u64Mod →
      ∃ o1 o2, get_amount_out a1 ri rwi ro rwo fee = Except.ok o1 ∧
        get_amount_out a2 ri rwi ro rwo fee = Except.ok o2 ∧ o1 ≤ o2) ∧
    (∀ ri rwi ro rwo b1 b2 : Nat, ∀ fee : Fin 256,
      0 < b1 → b1 ≤ b2 → b2 < ro → 0 < ri → 0 < rwi → 0 < rwo →
      ro * 10000 < u64Mod →
      ri * b2 * 10000 * rwo < (ro - b2) * fee_multiplier fee * rwi * (u64Mod - 1) →
      ∃ v1 v2, get_amount_in b1 ri rwi ro rwo fee = Except.ok v1 ∧
        get_amount_in b2 ri rwi ro rwo fee = Except.ok v2 ∧ v1 ≤ v2) :=
  ⟨fun ri rwi ro rwo a1 a2 fee h1 h12 h2 h3 h4 h5 h6 h7 =>
      get_amount_out_mono ri rwi ro rwo a1 a2 fee h1 h12 h2 h3 h4 h5 h6 h7,
    fun ri rwi ro rwo b1 b2 fee h1 h12 h2 h3 h4 h5 h6 h7 =>
      get_amount_in_mono ri rwi ro rwo b1 b2 fee h1 h12 h2 h3 h4 h5 h6 h7⟩

/-- Claim C7, instances: weak monotonicity at concrete inputs
(amounts 1 ≤ 5, reserves 100 and 1000, equal weights, fee 30). -/
theorem c7_witness :
    (∃ o1 o2, get_amount_out 1 100 50000 1000 50000 30 = Except.ok o1 ∧
      get_amount_out 5 100 50000 1000 50000 30 = Except.ok o2 ∧ o1 ≤ o2) ∧
    (∃ v1 v2, get_amount_in 1 100 50000 1000 50000 30 = Except.ok v1 ∧
      get_amount_in 5 100 50000 1000 50000 30 = Except.ok v2 ∧ v1 ≤ v2) :=
  ⟨c7_weak_monotonicity.1 100 50000 1000 50000 1 5 30 (by norm_num)
      (by norm_num) (by norm_num) (by norm_num) (by norm_num) (by norm_num)
      (by norm_num [u64Mod, show fee_multiplier 30 = 9970 from rfl]) (by norm_num [u64Mod, show fee_multiplier 30 = 9970 from rfl]),
    c7_weak_monotonicity.2 100 50000 1000 50000 1 5 30 (by norm_num)
      (by norm_num) (by norm_num) (by norm_num) (by norm_num) (by norm_num)
      (by norm_num [u64Mod, show fee_multiplier 30 = 9970 from rfl]) (by norm_num [u64Mod, show fee_multiplier 30 = 9970 from rfl])⟩

/-- Claim C8: the round trip was claimed to satisfy
`get_amount_in(get_amount_out(amount_in)) ≤ amount_in`. Counterexample:
with unequal weights (weight_in 100000, weight_out 50000, both reserves
10^6, fee 30), `get_amount_out 10000` returns 19645 and feeding 19645 back
into `get_amount_in` yields 10050 > 10000 — `get_amount_in`'s linear
weight quotient is not the inverse of `get_amount_out`'s power formula. -/
theorem c8_counterexample :
    get_amount_out 10000 1000000 100000 1000000 50000 30 = Except.ok 19645 ∧
      get_amount_in 19645 1000000 100000 1000000 50000 30 = Except.ok 10050 ∧
      10000 < 10050 := by
  refine ⟨?_, ?_, by norm_num⟩
  · simp only [get_amount_out, wrap64, sub64, u64Mod,
      show fee_multiplier 30 = 9970 from rfl]
    norm_num
    decide
  · simp only [get_amount_in, wrap64, sub64, u64Mod,
      show fee_multiplier 30 = 9970 from rfl]
    norm_num
    decide

/-- Claim C8 (amended): at equal weights, within the no-wrap range, and
when the first leg returns a positive amount, the round trip never needs
more than `amount_in + 1`: the claimed `≤ amount_in` can be exceeded by
exactly the +1 upward-rounding unit of `get_amount_in`, and the claim
fails outright for unequal weights. -/
theorem c8_round_trip_bound (a ri w ro o : Nat) (fee : Fin 256)
    (h1 : 0 < a) (h2 : 0 < ri) (h3 : 0 < ro) (h4 : 0 < w)
    (h6 : a * fee_multiplier fee < u64Mod) (h7 : ri * 10000 < u64Mod)
    (h8 : ro * 10000 < u64Mod)
    (hout : get_amount_out a ri w ro w fee = Except.ok o) (ho : 1 ≤ o) :
    ∃ v, get_amount_in o ri w ro w fee = Except.ok v ∧ v ≤ a + 1 := by
  have hfm := fee_multiplier_bounds fee
  rw [get_amount_out_eval a ri w ro w fee h1 h2 h3 h4 h4 h6 h7] at hout
  have hwq : ((w : ℝ) / (w : ℝ)) = 1 := div_self (by exact_mod_cast h4.ne')
  have hsR : (0 : ℝ) < ((ri * 10000 : ℕ) : ℝ) := by
    exact_mod_cast Nat.mul_pos h2 (by norm_num)
  have hxR : (0 : ℝ) < ((a * fee_multiplier fee : ℕ) : ℝ) := by
    exact_mod_cast Nat.mul_pos h1 (by omega)
  have hsx : (0 : ℝ) <
      ((ri * 10000 : ℕ) : ℝ) + ((a * fee_multiplier fee : ℕ) : ℝ) := by linarith
  rw [hwq, Real.rpow_one, one_sub_div hsx.ne', add_sub_cancel_left] at hout
  have ho_eq := Except.ok.inj hout
  obtain ⟨horo, hkey⟩ :=
    round_trip_key (ri * 10000) (a * fee_multiplier fee) ro
      (Nat.mul_pos h2 (by norm_num)) (Nat.mul_pos h1 (by omega)) h3
  rw [ho_eq] at horo hkey
  have halt : a < u64Mod - 1 := by
    have h9745 : a * 9745 ≤ a * fee_multiplier fee := Nat.mul_le_mul_left a hfm.1
    have := lt_of_le_of_lt h9745 h6
    simp only [u64Mod] at this ⊢
    omega
  have hin := get_amount_in_eval o ri w ro w fee ho horo h2 h4 h4
    (lt_of_le_of_lt (Nat.mul_le_mul (Nat.sub_le ro o) hfm.2) h8)
    (by
      have hpos : 0 < (ro - o) * fee_multiplier fee * w :=
        Nat.mul_pos (Nat.mul_pos (by omega) (by omega)) h4
      calc ri * o * 10000 * w = ri * 10000 * o * w := by ring
        _ ≤ a * fee_multiplier fee * (ro - o) * w := Nat.mul_le_mul_right w hkey
        _ = (ro - o) * fee_multiplier fee * w * a := by ring
        _ < (ro - o) * fee_multiplier fee * w * (u64Mod - 1) := by
            exact Nat.mul_lt_mul_of_le_of_lt (Nat.le_refl _) halt hpos
        _ = (ro - o) * fee_multiplier fee * w * (u64Mod - 1) := rfl)
  refine ⟨_, hin, ?_⟩
  simp only [get_amount_in_claimed]
  have hwqQ : ((w : ℚ) / (w : ℚ)) = 1 := div_self (by exact_mod_cast h4.ne')
  rw [hwqQ, mul_one]
  have hDQ : (0 : ℚ) < ((ro - o : Nat) : ℚ) * ((fee_multiplier fee : ℕ) : ℚ) := by
    have hd1 : (0 : ℚ) < ((ro - o : Nat) : ℚ) := by
      exact_mod_cast (by omega : 0 < ro - o)
    have hd2 : (0 : ℚ) < ((fee_multiplier fee : ℕ) : ℚ) := by
      exact_mod_cast (by omega : 0 < fee_multiplier fee)
    positivity
  have hqa : ((ri : ℚ) * (o : ℚ) * 10000) /
      (((ro - o : Nat) : ℚ) * ((fee_multiplier fee : ℕ) : ℚ)) ≤ (a : ℚ) := by
    rw [div_le_iff₀ hDQ]
    calc (ri : ℚ) * (o : ℚ) * 10000 = ((ri * 10000 * o : ℕ) : ℚ) := by
          push_cast; ring
      _ ≤ ((a * fee_multiplier fee * (ro - o) : ℕ) : ℚ) := by exact_mod_cast hkey
      _ = (a : ℚ) * (((ro - o : Nat) : ℚ) * ((fee_multiplier fee : ℕ) : ℚ)) := by
          push_cast; ring
  have hfl : ⌊((ri : ℚ) * (o : ℚ) * 10000) /
      (((ro - o : Nat) : ℚ) * ((fee_multiplier fee : ℕ) : ℚ))⌋ ≤ (a : ℤ) := by
    calc ⌊((ri : ℚ) * (o : ℚ) * 10000) /
        (((ro - o : Nat) : ℚ) * ((fee_multiplier fee : ℕ) : ℚ))⌋ ≤ ⌊(a : ℚ)⌋ :=
          Int.floor_le_floor hqa
      _ = (a : ℤ) := Int.floor_natCast a
  omega

/-- Claim C8, instance: `amount_in = 1` against reserves 1 and 100 at
equal weights gives `get_amount_out = 49`, and the way back costs at most
2 = 1 + 1. -/
theorem c8_witness :
    ∃ v, get_amount_in 49 1 50000 100 50000 30 = Except.ok v ∧ v ≤ 1 + 1 :=
  c8_round_trip_bound 1 1 50000 100 49 30 (by norm_num) (by norm_num)
    (by norm_num) (by norm_num)
    (by norm_num [u64Mod, show fee_multiplier 30 = 9970 from rfl])
    (by norm_num [u64Mod]) (by norm_num [u64Mod])
    (by
      simp only [get_amount_out, wrap64, sub64, u64Mod,
        show fee_multiplier 30 = 9970 from rfl]
      norm_num
      try decide)
    (by norm_num)

/-- Claim C9: there are inputs satisfying all of quote's checked
preconditions on which the final division's divisor
`reserve_a * 10000 / reserve_weight_a` is zero, so quote hits an integer
division by zero instead of returning. -/
theorem c9_quote_division_by_zero (a ra rwa rb rwb : Nat)
    (h1 : 0 < a) (h2 : 0 < ra) (h3 : 0 < rb) (h4 : rwb ≠ 0)
    (h5 : a * (wrap64 (rb * 10000) / rwb) < u64Mod)
    (h6 : wrap64 (ra * 10000) / rwa = 0) :
    quote a ra rwa rb rwb = Except.error Error.divisionByZero := by
  rw [quote_eval a ra rwa rb rwb h1 h2 h3 h4 h5]
  by_cases hrwa : rwa = 0
  · rw [if_pos hrwa]
  · rw [if_neg hrwa, if_pos h6]

/-- Claim C9, instance: `quote(10, 1, 20000, 100, 50000)` passes every
check (`10000 / 20000` truncates to 0) and divides by zero. -/
theorem c9_witness :
    quote 10 1 20000 100 50000 = Except.error Error.divisionByZero :=
  c9_quote_division_by_zero 10 1 20000 100 50000 (by norm_num) (by norm_num)
    (by norm_num) (by norm_num) (by norm_num [wrap64, u64Mod])
    (by norm_num [wrap64, u64Mod])

/-- Claim C10: the fee is an unsigned 8-bit value, so every representable
fee gives a multiplier `10000 - fee` between 9745 and 10000 — strictly
positive, and the subtraction cannot underflow. -/
theorem c10_fee_multiplier_range (fee : Fin 256) :
    9745 ≤ fee_multiplier fee ∧ 0 < fee_multiplier fee := by
  have h := fee_multiplier_bounds fee
  omega

end SxBalance
